import Mathlib

/-!
Verification of the alert2pg deduplication buffer and persistence engine.

The development shallowly embeds the Go sources:
  * `pkg/alert/alert.go`   — the alert record, its identity key, content
    comparison, expiry predicate and resolved transition;
  * `buffer/buffer.go`     — the in-memory keyed buffer with its update,
    mark-persisted, reconciliation and eviction operations;
  * `storage/storage.go`   — the batch persistence engine.

Go `time.Time` instants are modelled by `GoTime` (seconds plus a
nanosecond offset), Go maps by association lists, and the buffer's
`map[string]*alert.Alert` by a list of key/record pairs.  Pointer
mutation of an entry becomes functional replacement of that entry.
A nil-pointer dereference (reading a missing map entry and then
dereferencing it) is modelled by an `Option` result being `none`.
-/

/-- Model of a Go `time.Time` instant: whole seconds since the epoch plus
a nanosecond offset in `[0, 1e9)` (the invariant is not needed by any
proof and is not enforced).  Go `==` on parsed times is field equality. -/
structure GoTime where
  sec : Int
  nsec : Nat
deriving DecidableEq, Repr

/-- Go `Time.UnixMilli`: `t.unixSec()*1e3 + int64(t.nsec())/1e6`. -/
def GoTime.unixMilli (t : GoTime) : Int :=
  t.sec * 1000 + (t.nsec / 1000000 : Nat)

/-- Go `time.Since(t)` evaluated at instant `now`, as a duration in
nanoseconds: `now - t`. -/
def GoTime.sub (now t : GoTime) : Int :=
  (now.sec - t.sec) * 1000000000 + ((now.nsec : Int) - (t.nsec : Int))

/-- Alert status constant `alert.Firing` (`"firing"`). -/
def Firing : String := "firing"

/-- Alert status constant `alert.Resolved` (`"resolved"`). -/
def Resolved : String := "resolved"

/-- Go `map[string]string` modelled as an association list; a Go map has
no duplicate keys, which proofs assume where it matters via an explicit
`Nodup` hypothesis on the keys. -/
abbrev StrMap := List (String × String)

/-- Go map read `m[k]`: the value stored for `k`, if any. -/
def lookupStr (m : StrMap) (k : String) : Option String :=
  match m with
  | [] => none
  | (k', v) :: rest => if k' = k then some v else lookupStr rest k

/-- The alert record of `pkg/alert/alert.go` (`type Alert struct`).
`loaded`/`loadedAt` are the persisted-bookkeeping fields (the spec's
`persisted`/`persisted_at`). -/
structure Alert where
  loaded : Bool
  loadedAt : GoTime
  fingerprint : String
  status : String
  startsAt : GoTime
  endsAt : GoTime
  labels : StrMap
  annotations : StrMap
  generatorURL : String
deriving DecidableEq, Repr

/-- Fuel-driven core of the decimal-digit expansion (structural
recursion so that concrete keys evaluate inside the kernel). -/
def natDigitsCore : Nat → Nat → List Nat → List Nat
  | 0, _, acc => acc
  | fuel + 1, n, acc =>
      if n < 10 then n :: acc
      else natDigitsCore fuel (n / 10) (n % 10 :: acc)

/-- Decimal digits of a natural number, most significant first, each
digit `< 10`.  Used to model the `%d` verb of `fmt.Sprintf`. -/
def natDigits (n : Nat) : List Nat :=
  natDigitsCore (n + 1) n []

/-- Recursive restatement of `natDigits`, convenient for induction. -/
def natDigitsR (n : Nat) : List Nat :=
  if _h : n < 10 then [n]
  else natDigitsR (n / 10) ++ [n % 10]
termination_by n
decreasing_by
  exact Nat.div_lt_self (by omega) (by omega)

/-- Character of one decimal digit (`0 ↦ '0'`, …, `9 ↦ '9'`). -/
def digitChar (d : Nat) : Char := Char.ofNat (48 + d)

/-- Decimal rendering of an `Int`, as Go's `%d` formats it: the digits of
the absolute value, preceded by `'-'` when negative. -/
def intChars (i : Int) : List Char :=
  if i < 0 then '-' :: (natDigits i.natAbs).map digitChar
  else (natDigits i.toNat).map digitChar

/-- Alert identity key, `Alert.Key` of `pkg/alert/alert.go`:
`fmt.Sprintf("%s:%d", a.Fingerprint, a.StartsAt.UnixMilli())`. -/
def Alert.key (a : Alert) : String :=
  a.fingerprint ++ ":" ++ ⟨intChars a.startsAt.unixMilli⟩

/-- Content comparison `Alert.Equal` of `pkg/alert/alert.go`: returns
false on any mismatch of fingerprint, status, start/end timestamps,
generator URL or the NUMBER of annotations, then requires every label
of the receiver to be present in `b` with the same value.  Annotation
values are not compared (only their count is), and labels are compared
in one direction only — exactly as the source does. -/
def Alert.equal (a b : Alert) : Bool :=
  if a.fingerprint ≠ b.fingerprint ∨ a.status ≠ b.status
      ∨ a.startsAt ≠ b.startsAt ∨ a.endsAt ≠ b.endsAt
      ∨ a.generatorURL ≠ b.generatorURL
      ∨ a.annotations.length ≠ b.annotations.length then
    false
  else
    a.labels.all fun kv => lookupStr b.labels kv.1 == some kv.2

/-- Expiry predicate `Alert.IsExpired` of `pkg/alert/alert.go`:
`a.Status == Resolved && a.Loaded && time.Since(a.LoadedAt) > t`,
evaluated at instant `now` with max lifetime `t` in nanoseconds. -/
def Alert.isExpired (a : Alert) (now : GoTime) (t : Int) : Bool :=
  a.status == Resolved && a.loaded && GoTime.sub now a.loadedAt > t

/-- Transition `Alert.SetResolved` of `pkg/alert/alert.go`: clears the
loaded flag, sets status Resolved, and stamps both `EndsAt` and
`LoadedAt` with the current time. -/
def Alert.setResolved (a : Alert) (now : GoTime) : Alert :=
  { a with loaded := false, status := Resolved, endsAt := now, loadedAt := now }

/-- The spec's notion of unchanged content: every field other than the
persisted-bookkeeping pair `loaded`/`loadedAt` is equal. -/
def contentEqual (a b : Alert) : Prop :=
  a.fingerprint = b.fingerprint ∧ a.status = b.status
    ∧ a.startsAt = b.startsAt ∧ a.endsAt = b.endsAt
    ∧ a.labels = b.labels ∧ a.annotations = b.annotations
    ∧ a.generatorURL = b.generatorURL

instance (a b : Alert) : Decidable (contentEqual a b) := by
  unfold contentEqual; infer_instance

/-- The buffer's map `map[string]*alert.Alert`, as a list of
key/record entries. -/
abbrev Buf := List (String × Alert)

/-- Go map read `b.buffer[k]`: the record stored under `k`, if any. -/
def findA (m : Buf) (k : String) : Option Alert :=
  match m with
  | [] => none
  | (k', a) :: rest => if k' = k then some a else findA rest k

/-- Pointer write `b.buffer[k] = &a`: replace the entry stored under
`k` by `a` (a no-op on keys that are absent, which is the only way the
source ever reaches this statement). -/
def setEntry (m : Buf) (k : String) (a : Alert) : Buf :=
  match m with
  | [] => []
  | e :: rest => (if e.1 = k then (e.1, a) else e) :: setEntry rest k a

/-- In-place field write `b.buffer[k].LoadedAt = t` through the stored
pointer. -/
def setLoadedAt (m : Buf) (k : String) (t : GoTime) : Buf :=
  match m with
  | [] => []
  | e :: rest =>
      (if e.1 = k then (e.1, { e.2 with loadedAt := t }) else e) :: setLoadedAt rest k t

/-- In-place writes `source.Loaded = true; source.LoadedAt = now` of
`Buffer.SetLoads`. -/
def markLoaded (m : Buf) (k : String) (now : GoTime) : Buf :=
  match m with
  | [] => []
  | e :: rest =>
      (if e.1 = k then (e.1, { e.2 with loaded := true, loadedAt := now }) else e)
        :: markLoaded rest k now

/-- `Buffer.GetUnloads` of `buffer/buffer.go`: the body allocates an
empty slice and returns it without reading the buffer. -/
def getUnloads (_ : Buf) : List Alert :=
  []

/-- One iteration of `Buffer.SetLoads`: if a record is stored under
`a.Key()` and `source.Equal(a)` holds, mark that entry loaded at `now`;
otherwise leave the buffer unchanged. -/
def setLoadsOne (now : GoTime) (m : Buf) (a : Alert) : Buf :=
  match findA m a.key with
  | some source => if source.equal a then markLoaded m a.key now else m
  | none => m

/-- `Buffer.SetLoads` of `buffer/buffer.go`, at instant `now`. -/
def setLoads (m : Buf) (now : GoTime) (as : List Alert) : Buf :=
  as.foldl (setLoadsOne now) m

/-- One iteration of `Buffer.Update`'s loop.  The source evaluates
`a.Equal(*b.buffer[a.Key()])` without checking presence: when the key is
absent the stored pointer is nil and the dereference panics, modelled
as `none`.  When present: on equal content only `LoadedAt` is copied
from the incoming record; otherwise the entry is replaced wholesale. -/
def updateOne (m : Buf) (a : Alert) : Option Buf :=
  match findA m a.key with
  | none => none
  | some stored =>
      if a.equal stored then some (setLoadedAt m a.key a.loadedAt)
      else some (setEntry m a.key a)

/-- The loop of `Buffer.Update` of `buffer/buffer.go` over an incoming
batch (the access-gate acquisition, which can only fail with a context
error before the loop runs, is not modelled). -/
def update (m : Buf) (as : List Alert) : Option Buf :=
  match as with
  | [] => some m
  | a :: rest =>
      match updateOne m a with
      | none => none
      | some m' => update m' rest

/-- The sweep of `Buffer.sync` of `buffer/buffer.go` given the
controller's current firing-identity key set: every stored record with
status Firing whose key is not in the set is transitioned to Resolved
at instant `now`; every other record is left as it is. -/
def syncSweep (keySet : List String) (now : GoTime) (m : Buf) : Buf :=
  match m with
  | [] => []
  | e :: rest =>
      (if ¬ keySet.contains e.1 ∧ e.2.status == Firing then (e.1, e.2.setResolved now)
       else e) :: syncSweep keySet now rest

/-- `Buffer.gc` of `buffer/buffer.go`, at instant `now` with max
lifetime `t`: delete every entry whose record `IsExpired`. -/
def gcSweep (m : Buf) (now : GoTime) (t : Int) : Buf :=
  m.filter fun e => ! e.2.isExpired now t

/-- Alerts sent into the `intermediate` work channel by the body of
`Storage.Save` (`storage/storage.go` lines 127–158): the function
creates the channel and spawns workers ranging over it, but contains no
statement sending on it, so no alert is ever handed to a worker. -/
def sentToWorkers (_ : List Alert) : List Alert :=
  []

/-- The stream of worker outcomes available to `Storage.Save`'s
collection loop: one outcome per alert actually received from the work
channel; `oracle a = true` means the per-record transaction `s.save(a)`
succeeds. -/
def workerOutcomes (oracle : Alert → Bool) (as : List Alert) : List (Alert × Bool) :=
  (sentToWorkers as).map fun a => (a, oracle a)

/-- The collection loop of `Storage.Save`: it must receive exactly
`as.length` outcomes before returning the successful alerts; if fewer
outcomes can ever arrive it blocks forever, modelled as `none`. -/
def storageSave (oracle : Alert → Bool) (as : List Alert) : Option (List Alert) :=
  let outcomes := workerOutcomes oracle as
  if as.length ≤ outcomes.length then
    some (((outcomes.take as.length).filter (·.2)).map (·.1))
  else none

/-- One pass of the persistence engine (`Storage.Run` body or the final
pass of `Storage.Stop`): pull `GetUnloads`, save the batch, and feed the
confirmed successes back through `SetLoads`.  A blocked save (`none`)
never returns, so the buffer is left as it was. -/
def engineCycle (oracle : Alert → Bool) (now : GoTime) (m : Buf) : Buf :=
  match storageSave oracle (getUnloads m) with
  | some successes => setLoads m now successes
  | none => m

/-- An alert as delivered to `Buffer.Update` by the webhook handler:
`Alert.UnmarshalJSON` initialises the record from `DefaultAlert()`
(`Loaded=false`, `LoadedAt=time.Now()`) and both bookkeeping fields
carry the `json:"-"` tag, so the wire content can never set them. -/
def fromWebhook (parseTime : GoTime) (a : Alert) : Alert :=
  { a with loaded := false, loadedAt := parseTime }

/-- Buffer states reachable in the system as wired: starting from a
buffer with no record marked loaded, under webhook updates (whose
records always carry `loaded=false`), engine passes, reconciliation
sweeps and eviction sweeps. -/
inductive Reachable : Buf → Prop where
  | init (m : Buf) (h : ∀ e ∈ m, e.2.loaded = false) : Reachable m
  | upd (m m' : Buf) (as : List Alert) (t : GoTime) (hr : Reachable m)
      (h : update m (as.map (fromWebhook t)) = some m') : Reachable m'
  | engine (m : Buf) (oracle : Alert → Bool) (now : GoTime) (hr : Reachable m) :
      Reachable (engineCycle oracle now m)
  | syncStep (m : Buf) (keySet : List String) (now : GoTime) (hr : Reachable m) :
      Reachable (syncSweep keySet now m)
  | gcStep (m : Buf) (now : GoTime) (t : Int) (hr : Reachable m) :
      Reachable (gcSweep m now t)

/-- No record of the buffer is marked persisted. -/
def allUnloaded (m : Buf) : Prop :=
  ∀ e ∈ m, e.2.loaded = false

instance (m : Buf) : Decidable (allUnloaded m) := by
  unfold allUnloaded; infer_instance

/-- Number of buffer entries stored under key `k`. -/
def countKey (m : Buf) (k : String) : Nat :=
  m.countP fun e => e.1 == k

/-- The buffer map's keys are pairwise distinct (automatic for a Go
map; an explicit invariant for the association-list model). -/
def nodupKeys (m : Buf) : Prop :=
  (m.map Prod.fst).Nodup

instance (m : Buf) : Decidable (nodupKeys m) := by
  unfold nodupKeys; infer_instance

/-! Concrete instants and records used by the evaluation and witness
theorems. -/

/-- Sample instant. -/
def tA : GoTime := ⟨100, 0⟩

/-- Sample instant. -/
def tB : GoTime := ⟨200, 0⟩

/-- Sample instant. -/
def tC : GoTime := ⟨300, 0⟩

/-- Unpersisted record sitting in the buffer for the `GetUnloads`
evaluation. -/
def unloadedC2 : Alert :=
  ⟨false, tA, "fp2", Firing, ⟨30, 0⟩, ⟨0, 0⟩, [("alertname", "a")], [], "u"⟩

/-- One record of the five-record batch submitted to `Storage.Save`. -/
def mkBatchAlert (fp : String) : Alert :=
  ⟨false, tA, fp, Firing, ⟨40, 0⟩, ⟨0, 0⟩, [], [], "u"⟩

/-- The spec's batch of five records. -/
def batchC3 : List Alert :=
  [mkBatchAlert "f1", mkBatchAlert "f2", mkBatchAlert "f3",
   mkBatchAlert "f4", mkBatchAlert "f5"]

/-- Simulated store: the transactions of records `f4` and `f5` fail. -/
def oracleC3 : Alert → Bool := fun a =>
  !(a.fingerprint == "f4" || a.fingerprint == "f5")

/-- Stored record for the annotation-change evaluation: already
persisted, annotation value `"old"`. -/
def storedC4 : Alert :=
  ⟨true, tA, "fp4", Firing, ⟨10, 0⟩, ⟨0, 0⟩, [("alertname", "x")], [("summary", "old")], "u"⟩

/-- Incoming record identical to `storedC4` except for the changed
annotation value. -/
def incomingC4 : Alert :=
  { storedC4 with loaded := false, loadedAt := tB, annotations := [("summary", "new")] }

/-- Record whose identity is absent from the buffer. -/
def freshC5 : Alert :=
  ⟨false, tA, "fp5", Firing, ⟨20, 0⟩, ⟨0, 0⟩, [], [], "u"⟩

/-- Buffer record that superseded the one the engine read: the
annotation value changed, so it is pending persistence. -/
def storedC8 : Alert :=
  ⟨false, tA, "fp8", Firing, ⟨50, 0⟩, ⟨0, 0⟩, [("alertname", "y")], [("summary", "new")], "u"⟩

/-- The stale copy the engine passes back to `SetLoads`. -/
def staleC8 : Alert :=
  { storedC8 with annotations := [("summary", "old")] }

/-- Stored record for the dedup-idempotence witness: already persisted. -/
def storedC1 : Alert :=
  ⟨true, tA, "fp1", Firing, ⟨60, 0⟩, ⟨0, 0⟩, [("l", "v")], [("an", "av")], "u"⟩

/-- Retransmitted copy of `storedC1`: identical content, fresh
bookkeeping fields. -/
def incomingC1 : Alert :=
  { storedC1 with loaded := false, loadedAt := tC }

/-- Firing record `A` of the reconciliation witness. -/
def alertA : Alert :=
  ⟨false, tA, "fpA", Firing, ⟨70, 0⟩, ⟨0, 0⟩, [], [], "u"⟩

/-- Firing record `B` of the reconciliation witness. -/
def alertB : Alert :=
  ⟨false, tA, "fpB", Firing, ⟨71, 0⟩, ⟨0, 0⟩, [], [], "u"⟩

/-- Buffer `{A: Firing, B: Firing}` of the reconciliation witness. -/
def bufC6 : Buf :=
  [(alertA.key, alertA), (alertB.key, alertB)]

/-- Resolved, persisted record for the eviction-boundary witness. -/
def a7 : Alert :=
  ⟨true, tA, "fp7", Resolved, ⟨75, 0⟩, ⟨0, 0⟩, [], [], "u"⟩

/-- Buffer entry holding `a7`. -/
def entC7 : String × Alert :=
  (a7.key, a7)

/-- Unpersisted record for the wired-system witness. -/
def a9 : Alert :=
  ⟨false, tA, "fp9", Resolved, ⟨80, 0⟩, ⟨0, 0⟩, [], [], "u"⟩

/-- Buffer holding `a9`. -/
def buf9 : Buf :=
  [(a9.key, a9)]

/-- Record whose start timestamp is the epoch. -/
def c10a : Alert :=
  ⟨false, tA, "cfp", Firing, ⟨0, 0⟩, ⟨0, 0⟩, [], [], "u"⟩

/-- Record with the same fingerprint as `c10a` whose start timestamp
differs by 1000 nanoseconds — inside the same millisecond. -/
def c10b : Alert :=
  { c10a with startsAt := ⟨0, 1000⟩ }

/-- Record with the same fingerprint as `c10a` whose start timestamp
falls in a different millisecond. -/
def c10c : Alert :=
  { c10a with startsAt := ⟨1, 0⟩ }

/-- Big-endian value of a decimal digit list, inverse of `natDigitsR`. -/
def decVal (l : List Nat) : Nat :=
  l.foldl (fun acc d => acc * 10 + d) 0

/-! Evaluation theorems for the divergences between the source and the
spec. -/

/-- Claim C2 (code bug): `UnsavedRecords` must return exactly the
records with `persisted=false`, but `Buffer.GetUnloads` allocates an
empty slice and returns it without reading the buffer: a buffer holding
an unpersisted record still yields the empty list. -/
theorem c2_getUnloads_ignores_buffer :
    unloadedC2.loaded = false ∧ getUnloads [(unloadedC2.key, unloadedC2)] = [] :=
  ⟨rfl, rfl⟩

/-- Claim C3 (code bug): `Storage.Save` never sends the submitted batch
into its workers' channel, so on the spec's batch of five with two
simulated failures no outcome is ever produced and the collection loop
can never gather its five outcomes (the call blocks forever, modelled
as `none`); only the empty batch returns, with the empty success list. -/
theorem c3_save_blocks_on_nonempty :
    batchC3.length = 5 ∧ storageSave oracleC3 batchC3 = none
      ∧ storageSave oracleC3 [] = some [] :=
  ⟨rfl, rfl, rfl⟩

/-- Claim C4 (code bug): a record differing from the stored one only in
an annotation value is treated by `Update` as an unchanged duplicate,
because `Alert.Equal` compares annotation counts but never annotation
values: the stored record keeps its old annotation value and its
`persisted=true` flag instead of being replaced with `persisted=false`. -/
theorem c4_annotation_change_not_retriggered :
    ¬ contentEqual incomingC4 storedC4
    ∧ incomingC4.equal storedC4 = true
    ∧ update [(storedC4.key, storedC4)] [incomingC4]
        = some [(storedC4.key, { storedC4 with loadedAt := incomingC4.loadedAt })]
    ∧ ({ storedC4 with loadedAt := incomingC4.loadedAt }).loaded = true
    ∧ ({ storedC4 with loadedAt := incomingC4.loadedAt }).annotations
        = [("summary", "old")] :=
  ⟨by decide, rfl, rfl, rfl, rfl⟩

/-- Claim C5 (code bug): `Update` on an identity absent from the buffer
map dereferences the nil pointer returned by the map read (the gap the
source's own TODO comment admits) and panics instead of inserting the
record verbatim: the model yields `none`, not a buffer with the new
entry. -/
theorem c5_update_panics_on_unseen :
    findA [] freshC5.key = none ∧ update [] [freshC5] = none :=
  ⟨rfl, rfl⟩

/-- Claim C8 (code bug): the guard of `SetLoads` uses `Alert.Equal`,
which ignores annotation values, so a record superseded by an `Update`
that changed only an annotation value is still marked persisted — the
claimed "superseded record is left entirely unchanged" fails and the
pending re-save is falsely suppressed. -/
theorem c8_setLoads_marks_superseded :
    ¬ contentEqual staleC8 storedC8
    ∧ storedC8.loaded = false
    ∧ setLoads [(storedC8.key, storedC8)] tC [staleC8]
        = [(storedC8.key, { storedC8 with loaded := true, loadedAt := tC })] :=
  ⟨by decide, rfl, rfl⟩

/-! Lemmas about the association-list buffer operations. -/

/-- Writing `LoadedAt` at key `k` changes exactly that record's
`loadedAt` field as seen through a map read at `k`. -/
theorem findA_setLoadedAt_self (m : Buf) (k : String) (t : GoTime) :
    findA (setLoadedAt m k t) k = (findA m k).map fun a => { a with loadedAt := t } := by
  induction m with
  | nil => rfl
  | cons e rest ih =>
      obtain ⟨k1, a1⟩ := e
      rw [setLoadedAt.eq_2]
      by_cases h : k1 = k
      · subst h
        rw [if_pos rfl, findA.eq_2, findA.eq_2, if_pos rfl, if_pos rfl]
        rfl
      · rw [if_neg h, findA.eq_2, findA.eq_2, if_neg h, if_neg h]
        exact ih

/-- Writing `LoadedAt` at a key preserves the multiset of keys. -/
theorem countKey_setLoadedAt (m : Buf) (k : String) (t : GoTime) (k' : String) :
    countKey (setLoadedAt m k t) k' = countKey m k' := by
  induction m with
  | nil => rfl
  | cons e rest ih =>
      obtain ⟨k1, a1⟩ := e
      rw [setLoadedAt.eq_2]
      by_cases h : k1 = k
      · rw [if_pos h]
        simp only [countKey, List.countP_cons] at ih ⊢
        omega
      · rw [if_neg h]
        simp only [countKey, List.countP_cons] at ih ⊢
        omega

/-- A key that a nodup-keyed buffer stores a record under occurs in
exactly one entry. -/
theorem countKey_eq_one (m : Buf) (k : String) (a : Alert)
    (hnd : nodupKeys m) (h : findA m k = some a) : countKey m k = 1 := by
  induction m with
  | nil => simp [findA] at h
  | cons e rest ih =>
      obtain ⟨k1, a1⟩ := e
      rw [nodupKeys, List.map_cons, List.nodup_cons] at hnd
      obtain ⟨hni, hnd'⟩ := hnd
      rw [findA.eq_2] at h
      by_cases hk : k1 = k
      · have hzero : countKey rest k = 0 := by
          rw [countKey, List.countP_eq_zero]
          intro x hx hbeq
          apply hni
          have hx1 : x.1 = k := by simpa using hbeq
          show k1 ∈ rest.map Prod.fst
          rw [hk, ← hx1]
          exact List.mem_map_of_mem Prod.fst hx
        rw [countKey, List.countP_cons]
        rw [countKey] at hzero
        simp [hk, hzero]
      · rw [if_neg hk] at h
        have hr := ih hnd' h
        rw [countKey, List.countP_cons]
        rw [countKey] at hr
        simp [hk, hr]

/-- In a label map without duplicate keys, every stored pair is found
again by a map read of its key. -/
theorem lookupStr_self (l : StrMap) (hnd : (l.map Prod.fst).Nodup) :
    ∀ kv ∈ l, lookupStr l kv.1 = some kv.2 := by
  induction l with
  | nil => simp
  | cons p rest ih =>
      obtain ⟨pk, pv⟩ := p
      rw [List.map_cons, List.nodup_cons] at hnd
      obtain ⟨hni, hnd'⟩ := hnd
      intro kv hkv
      rcases List.mem_cons.1 hkv with heq | hmem
      · subst heq
        rw [lookupStr.eq_2, if_pos rfl]
      · rw [lookupStr.eq_2]
        by_cases hp : pk = kv.1
        · exfalso
          apply hni
          show pk ∈ rest.map Prod.fst
          rw [hp]
          exact List.mem_map_of_mem Prod.fst hmem
        · rw [if_neg hp]
          exact ih hnd' kv hmem

/-- Full content equality implies the source's (coarser) `Alert.Equal`
comparison, provided the labels carry no duplicate keys (as a Go map
never does). -/
theorem equal_of_contentEqual (a b : Alert)
    (hnd : (a.labels.map Prod.fst).Nodup) (h : contentEqual a b) :
    a.equal b = true := by
  obtain ⟨h1, h2, h3, h4, h5, h6, h7⟩ := h
  rw [Alert.equal, if_neg (by simp [h1, h2, h3, h4, h6, h7])]
  simp only [List.all_eq_true]
  intro kv hkv
  have hl := lookupStr_self a.labels hnd kv hkv
  rw [← h5, hl]
  simp

/-- Claim C1: for an incoming record whose identity is already buffered
and whose content equals the stored record's content (ignoring the
persisted bookkeeping fields), `Update` succeeds, leaves exactly one
entry for that identity, stores it with the `persisted` flag unchanged
(true stays true), and only advances `persisted_at` to the incoming
record's timestamp. -/
theorem c1_dedup_idempotence (m : Buf) (a stored : Alert)
    (hnd : nodupKeys m) (hlbl : (a.labels.map Prod.fst).Nodup)
    (hfind : findA m a.key = some stored) (hc : contentEqual a stored) :
    update m [a] = some (setLoadedAt m a.key a.loadedAt)
      ∧ findA (setLoadedAt m a.key a.loadedAt) a.key
          = some { stored with loadedAt := a.loadedAt }
      ∧ ({ stored with loadedAt := a.loadedAt }).loaded = stored.loaded
      ∧ countKey (setLoadedAt m a.key a.loadedAt) a.key = 1 := by
  have heq : a.equal stored = true := equal_of_contentEqual a stored hlbl hc
  refine ⟨?_, ?_, rfl, ?_⟩
  · simp [update, updateOne, hfind, heq]
  · rw [findA_setLoadedAt_self, hfind]
    rfl
  · rw [countKey_setLoadedAt]
    exact countKey_eq_one m a.key stored hnd hfind

/-- Witness for claim C1: the retransmitted copy of an already-persisted
record leaves the single buffer entry persisted, with only its
`persisted_at` advanced. -/
theorem c1_dedup_idempotence_witness :
    update [(storedC1.key, storedC1)] [incomingC1]
        = some (setLoadedAt [(storedC1.key, storedC1)] incomingC1.key incomingC1.loadedAt)
      ∧ findA (setLoadedAt [(storedC1.key, storedC1)] incomingC1.key incomingC1.loadedAt)
            incomingC1.key
          = some { storedC1 with loadedAt := incomingC1.loadedAt }
      ∧ ({ storedC1 with loadedAt := incomingC1.loadedAt }).loaded = storedC1.loaded
      ∧ countKey (setLoadedAt [(storedC1.key, storedC1)] incomingC1.key incomingC1.loadedAt)
            incomingC1.key = 1 :=
  c1_dedup_idempotence [(storedC1.key, storedC1)] incomingC1 storedC1
    (by decide) (by decide) (by decide) (by decide)

/-- Reading any key through a reconciliation sweep yields the stored
record, transformed exactly when it was Firing and missing from the
controller's key set. -/
theorem findA_syncSweep (ks : List String) (now : GoTime) (m : Buf) (k : String) :
    findA (syncSweep ks now m) k
      = (findA m k).map fun a =>
          if ¬ ks.contains k ∧ a.status == Firing then a.setResolved now else a := by
  induction m with
  | nil => rfl
  | cons e rest ih =>
      obtain ⟨k1, a1⟩ := e
      rw [syncSweep.eq_2]
      by_cases hk : k1 = k
      · subst hk
        by_cases hc : ¬ ks.contains k1 ∧ a1.status == Firing
        · rw [if_pos hc, findA.eq_2, if_pos rfl, findA.eq_2, if_pos rfl]
          have hc' : k1 ∉ ks ∧ a1.status = Firing := by simpa using hc
          simp [hc'.1, hc'.2]
        · rw [if_neg hc, findA.eq_2, if_pos rfl, findA.eq_2, if_pos rfl]
          have hc' : ¬(k1 ∉ ks ∧ a1.status = Firing) := by simpa using hc
          simp [hc']
      · by_cases hc : ¬ ks.contains k1 ∧ a1.status == Firing
        · rw [if_pos hc, findA.eq_2, if_neg hk, findA.eq_2, if_neg hk]
          exact ih
        · rw [if_neg hc, findA.eq_2, if_neg hk, findA.eq_2, if_neg hk]
          exact ih

/-- Claim C6: after one reconciliation sweep with a given controller
Firing-identity set, every buffered Firing record whose key is absent
from the set is Resolved with its end timestamp set to now and
`persisted=false`, while every record whose key is in the set, and
every record that was not Firing, is unchanged. -/
theorem c6_reconciliation (ks : List String) (now : GoTime) (m : Buf) (k : String) (a : Alert)
    (hfind : findA m k = some a) :
    (a.status = Firing → ks.contains k = false →
        findA (syncSweep ks now m) k
          = some { a with loaded := false, status := Resolved, endsAt := now, loadedAt := now })
    ∧ (ks.contains k = true → findA (syncSweep ks now m) k = some a)
    ∧ (a.status ≠ Firing → findA (syncSweep ks now m) k = some a) := by
  have h := findA_syncSweep ks now m k
  rw [hfind] at h
  refine ⟨fun hs hk => ?_, fun hk => ?_, fun hs => ?_⟩
  · have hk' : k ∉ ks := by simpa using hk
    rw [h]
    simp [hk', hs, Alert.setResolved]
  · have hk' : k ∈ ks := by simpa using hk
    rw [h]
    simp [hk']
  · rw [h]
    simp [hs]

/-- Witness for claim C6: with buffer `{A: Firing, B: Firing}` and a
controller set reporting only `A`, one sweep resolves `B` and leaves
`A` unchanged. -/
theorem c6_reconciliation_witness :
    findA (syncSweep [alertA.key] tB bufC6) alertA.key = some alertA
      ∧ findA (syncSweep [alertA.key] tB bufC6) alertB.key
          = some { alertB with loaded := false, status := Resolved, endsAt := tB, loadedAt := tB } :=
  ⟨(c6_reconciliation [alertA.key] tB bufC6 alertA.key alertA (by decide)).2.1 (by decide),
   (c6_reconciliation [alertA.key] tB bufC6 alertB.key alertB (by decide)).1 rfl (by decide)⟩

/-- Claim C7: the eviction sweep removes a buffered entry exactly when
its record has status Resolved, `persisted=true`, and was persisted
strictly more than `max_lifetime` ago; an entry persisted exactly
`max_lifetime` ago is retained, and Firing or unpersisted entries are
retained regardless of age. -/
theorem c7_eviction (m : Buf) (now : GoTime) (t : Int) (e : String × Alert) (he : e ∈ m) :
    (e ∉ gcSweep m now t
        ↔ e.2.status = Resolved ∧ e.2.loaded = true ∧ GoTime.sub now e.2.loadedAt > t)
    ∧ (GoTime.sub now e.2.loadedAt = t → e ∈ gcSweep m now t)
    ∧ (e.2.status = Firing → e ∈ gcSweep m now t)
    ∧ (e.2.loaded = false → e ∈ gcSweep m now t) := by
  have hexp : e.2.isExpired now t = true
      ↔ (e.2.status = Resolved ∧ e.2.loaded = true ∧ GoTime.sub now e.2.loadedAt > t) := by
    simp [Alert.isExpired, and_assoc]
  have hmem : e ∈ gcSweep m now t ↔ e.2.isExpired now t = false := by
    simp [gcSweep, List.mem_filter, he]
  have hmem' : e ∉ gcSweep m now t ↔ e.2.isExpired now t = true := by
    rw [hmem]
    cases e.2.isExpired now t <;> simp
  refine ⟨hmem'.trans hexp, fun h0 => ?_, fun hs => ?_, fun hl => ?_⟩
  · rw [hmem]
    simp [Alert.isExpired, h0]
  · rw [hmem]
    have hfr : (Firing == Resolved) = false := by decide
    simp [Alert.isExpired, hs, hfr]
  · rw [hmem]
    simp [Alert.isExpired, hl]

/-- Witness for claim C7: a Resolved, persisted record whose
`persisted_at` lies exactly `max_lifetime` in the past survives the
eviction sweep. -/
theorem c7_eviction_witness :
    GoTime.sub tB a7.loadedAt = 100000000000
      ∧ entC7 ∈ gcSweep [entC7] tB 100000000000 :=
  ⟨by decide,
   (c7_eviction [entC7] tB 100000000000 entC7 (by decide)).2.1 (by decide)⟩

/-- Updating a bookkeeping timestamp never sets a persisted flag. -/
theorem allUnloaded_setLoadedAt (m : Buf) (k : String) (t : GoTime)
    (h : allUnloaded m) : allUnloaded (setLoadedAt m k t) := by
  induction m with
  | nil => exact h
  | cons e rest ih =>
      rw [setLoadedAt.eq_2]
      intro x hx
      rcases List.mem_cons.1 hx with heq | hmem
      · subst heq
        by_cases hk : e.1 = k
        · rw [if_pos hk]
          exact h e (List.mem_cons_self e rest)
        · rw [if_neg hk]
          exact h e (List.mem_cons_self e rest)
      · exact ih (fun y hy => h y (List.mem_cons_of_mem e hy)) x hmem

/-- Replacing an entry with an unpersisted record keeps the buffer free
of persisted flags. -/
theorem allUnloaded_setEntry (m : Buf) (k : String) (a : Alert)
    (h : allUnloaded m) (ha : a.loaded = false) : allUnloaded (setEntry m k a) := by
  induction m with
  | nil => exact h
  | cons e rest ih =>
      rw [setEntry.eq_2]
      intro x hx
      rcases List.mem_cons.1 hx with heq | hmem
      · subst heq
        by_cases hk : e.1 = k
        · rw [if_pos hk]
          exact ha
        · rw [if_neg hk]
          exact h e (List.mem_cons_self e rest)
      · exact ih (fun y hy => h y (List.mem_cons_of_mem e hy)) x hmem

/-- `Update` with a batch of unpersisted records keeps the buffer free
of persisted flags. -/
theorem allUnloaded_update (as : List Alert) (m m' : Buf)
    (ha : ∀ x ∈ as, x.loaded = false) (h : allUnloaded m)
    (hu : update m as = some m') : allUnloaded m' := by
  induction as generalizing m with
  | nil =>
      rw [update] at hu
      cases hu
      exact h
  | cons a rest ih =>
      rw [update.eq_2] at hu
      cases hup : updateOne m a with
      | none =>
          rw [hup] at hu
          cases hu
      | some m1 =>
          rw [hup] at hu
          refine ih m1 (fun x hx => ha x (List.mem_cons_of_mem a hx)) ?_ hu
          rw [updateOne] at hup
          cases hfind : findA m a.key with
          | none =>
              simp only [hfind] at hup
              exact Option.noConfusion hup
          | some stored =>
              simp only [hfind] at hup
              by_cases heq : a.equal stored = true
              · rw [if_pos heq] at hup
                cases hup
                exact allUnloaded_setLoadedAt m a.key a.loadedAt h
              · rw [if_neg heq] at hup
                cases hup
                exact allUnloaded_setEntry m a.key a h (ha a (List.mem_cons_self a rest))

/-- A reconciliation sweep keeps the buffer free of persisted flags. -/
theorem allUnloaded_syncSweep (ks : List String) (now : GoTime) (m : Buf)
    (h : allUnloaded m) : allUnloaded (syncSweep ks now m) := by
  induction m with
  | nil => exact h
  | cons e rest ih =>
      rw [syncSweep.eq_2]
      intro x hx
      rcases List.mem_cons.1 hx with heq | hmem
      · subst heq
        by_cases hc : ¬ ks.contains e.1 ∧ e.2.status == Firing
        · rw [if_pos hc]
          rfl
        · rw [if_neg hc]
          exact h e (List.mem_cons_self e rest)
      · exact ih (fun y hy => h y (List.mem_cons_of_mem e hy)) x hmem

/-- An eviction sweep keeps the buffer free of persisted flags. -/
theorem allUnloaded_gcSweep (m : Buf) (now : GoTime) (t : Int)
    (h : allUnloaded m) : allUnloaded (gcSweep m now t) := by
  intro x hx
  exact h x (List.mem_filter.1 hx).1

/-- The engine's pass is the identity on the buffer: `GetUnloads` always
returns the empty batch, `Save` of the empty batch returns the empty
success list, and `SetLoads` of the empty list changes nothing. -/
theorem engineCycle_id (oracle : Alert → Bool) (now : GoTime) (m : Buf) :
    engineCycle oracle now m = m := rfl

/-- On a buffer free of persisted flags the eviction sweep removes
nothing. -/
theorem gcSweep_id_of_allUnloaded (m : Buf) (now : GoTime) (t : Int)
    (h : allUnloaded m) : gcSweep m now t = m := by
  rw [gcSweep, List.filter_eq_self]
  intro e he
  simp [Alert.isExpired, h e he]

/-- Every buffer state reachable in the wired system is free of
persisted flags. -/
theorem reachable_allUnloaded (m : Buf) (h : Reachable m) : allUnloaded m := by
  induction h with
  | init m hm => exact hm
  | upd m m' as t hr hu ih =>
      refine allUnloaded_update (as.map (fromWebhook t)) m m' ?_ ih hu
      intro x hx
      obtain ⟨y, _, hy⟩ := List.mem_map.1 hx
      rw [← hy]
      rfl
  | engine m oracle now hr ih =>
      rw [engineCycle_id]
      exact ih
  | syncStep m ks now hr ih => exact allUnloaded_syncSweep ks now m ih
  | gcStep m now t hr ih => exact allUnloaded_gcSweep m now t ih

/-- Claim C9: in the system as wired, no buffered record ever becomes
persisted: `GetUnloads` always returns the empty collection, so every
engine pass saves an empty batch (returning the empty success list) and
marks nothing — the pass is the identity — every reachable buffer state
carries only `persisted=false` records, and consequently the eviction
sweep never removes anything. -/
theorem c9_wired_system_never_persists (m : Buf) (h : Reachable m) :
    getUnloads m = []
      ∧ (∀ oracle : Alert → Bool, storageSave oracle (getUnloads m) = some [])
      ∧ (∀ now : GoTime, setLoads m now [] = m)
      ∧ (∀ oracle : Alert → Bool, ∀ now : GoTime, engineCycle oracle now m = m)
      ∧ allUnloaded m
      ∧ (∀ now : GoTime, ∀ t : Int, gcSweep m now t = m) := by
  have hau := reachable_allUnloaded m h
  exact ⟨rfl, fun _ => rfl, fun _ => rfl, fun oracle now => engineCycle_id oracle now m, hau,
    fun now t => gcSweep_id_of_allUnloaded m now t hau⟩

/-- Witness for claim C9: a buffer holding one unpersisted Resolved
record is a valid system state; the engine pass leaves it unchanged and
the eviction sweep removes nothing from it. -/
theorem c9_wired_system_never_persists_witness :
    getUnloads buf9 = [] ∧ allUnloaded buf9 ∧ gcSweep buf9 tC 0 = buf9 := by
  have h := c9_wired_system_never_persists buf9 (Reachable.init buf9 (by decide))
  exact ⟨h.1, h.2.2.2.2.1, h.2.2.2.2.2 tC 0⟩

/-- Appending one digit multiplies the decoded value by ten. -/
theorem decVal_append_single (l : List Nat) (d : Nat) :
    decVal (l ++ [d]) = decVal l * 10 + d := by
  simp [decVal, List.foldl_append]

/-- `decVal` decodes the digit expansion back to the number. -/
theorem decVal_natDigitsR (n : Nat) : decVal (natDigitsR n) = n := by
  induction n using Nat.strong_induction_on with
  | _ n ih =>
      by_cases h : n < 10
      · rw [natDigitsR, dif_pos h]
        simp [decVal]
      · rw [natDigitsR, dif_neg h, decVal_append_single,
          ih (n / 10) (Nat.div_lt_self (by omega) (by omega))]
        omega

/-- Every entry of the digit expansion is a decimal digit. -/
theorem natDigitsR_lt (n : Nat) : ∀ d ∈ natDigitsR n, d < 10 := by
  induction n using Nat.strong_induction_on with
  | _ n ih =>
      intro d hd
      by_cases h : n < 10
      · rw [natDigitsR, dif_pos h] at hd
        simp at hd
        omega
      · rw [natDigitsR, dif_neg h] at hd
        rcases List.mem_append.1 hd with hL | hR
        · exact ih (n / 10) (Nat.div_lt_self (by omega) (by omega)) d hL
        · simp at hR
          omega

/-- The digit expansion is nonempty and starts with a decimal digit. -/
theorem natDigitsR_head (n : Nat) : ∃ d, d < 10 ∧ ∃ rest, natDigitsR n = d :: rest := by
  induction n using Nat.strong_induction_on with
  | _ n ih =>
      by_cases h : n < 10
      · exact ⟨n, h, [], by rw [natDigitsR, dif_pos h]⟩
      · obtain ⟨d, hd, rest, hrest⟩ := ih (n / 10) (Nat.div_lt_self (by omega) (by omega))
        refine ⟨d, hd, rest ++ [n % 10], ?_⟩
        rw [natDigitsR, dif_neg h, hrest]
        rfl

/-- The fuel-driven expansion agrees with the recursive one whenever the
fuel suffices. -/
theorem natDigitsCore_eq (fuel : Nat) : ∀ (n : Nat) (acc : List Nat), n < fuel →
    natDigitsCore fuel n acc = natDigitsR n ++ acc := by
  induction fuel with
  | zero => omega
  | succ f ih =>
      intro n acc h
      rw [natDigitsCore]
      by_cases h10 : n < 10
      · rw [if_pos h10, natDigitsR, dif_pos h10]
        rfl
      · have hlt : n / 10 < f := by
          have := Nat.div_lt_self (show 0 < n by omega) (show 1 < 10 by omega)
          omega
        rw [if_neg h10, ih (n / 10) (n % 10 :: acc) hlt]
        conv_rhs => rw [natDigitsR]
        rw [dif_neg h10, List.append_assoc]
        rfl

/-- The two digit expansions coincide. -/
theorem natDigits_eq_R (n : Nat) : natDigits n = natDigitsR n := by
  rw [natDigits, natDigitsCore_eq (n + 1) n [] (by omega)]
  simp

/-- `digitChar` is injective on decimal digits. -/
theorem digitChar_inj_lt : ∀ d1 < 10, ∀ d2 < 10, digitChar d1 = digitChar d2 → d1 = d2 := by
  decide

/-- No decimal digit renders as the minus sign. -/
theorem digitChar_ne_dash : ∀ d < 10, digitChar d ≠ '-' := by
  decide

/-- Rendering digit lists to characters is injective on digit lists. -/
theorem map_digitChar_inj (l1 : List Nat) : ∀ (l2 : List Nat),
    (∀ d ∈ l1, d < 10) → (∀ d ∈ l2, d < 10) →
    l1.map digitChar = l2.map digitChar → l1 = l2 := by
  induction l1 with
  | nil =>
      intro l2 _ _ h
      cases l2 with
      | nil => rfl
      | cons d2 t2 => simp at h
  | cons d t ih =>
      intro l2 h1 h2 h
      cases l2 with
      | nil => simp at h
      | cons d2 t2 =>
          simp only [List.map_cons, List.cons.injEq] at h
          have hd := digitChar_inj_lt d (h1 d (by simp)) d2 (h2 d2 (by simp)) h.1
          have ht := ih t2 (fun x hx => h1 x (by simp [hx])) (fun x hx => h2 x (by simp [hx])) h.2
          rw [hd, ht]

/-- The decimal rendering of integers is injective. -/
theorem intChars_inj (i j : Int) (h : intChars i = intChars j) : i = j := by
  rw [intChars, intChars] at h
  simp only [natDigits_eq_R] at h
  by_cases hi : i < 0 <;> by_cases hj : j < 0
  · rw [if_pos hi, if_pos hj] at h
    simp only [List.cons.injEq, true_and] at h
    have hEq := map_digitChar_inj _ _ (natDigitsR_lt _) (natDigitsR_lt _) h
    have habs : i.natAbs = j.natAbs := by
      have hd := decVal_natDigitsR i.natAbs
      rw [hEq, decVal_natDigitsR] at hd
      omega
    omega
  · rw [if_pos hi, if_neg hj] at h
    obtain ⟨d, hd, rest, hrest⟩ := natDigitsR_head j.toNat
    rw [hrest] at h
    simp only [List.map_cons, List.cons.injEq] at h
    exact absurd h.1.symm (digitChar_ne_dash d hd)
  · rw [if_neg hi, if_pos hj] at h
    obtain ⟨d, hd, rest, hrest⟩ := natDigitsR_head i.toNat
    rw [hrest] at h
    simp only [List.map_cons, List.cons.injEq] at h
    exact absurd h.1 (digitChar_ne_dash d hd)
  · rw [if_neg hi, if_neg hj] at h
    have hEq := map_digitChar_inj _ _ (natDigitsR_lt _) (natDigitsR_lt _) h
    have hNat : i.toNat = j.toNat := by
      have hd := decVal_natDigitsR i.toNat
      rw [hEq, decVal_natDigitsR] at hd
      omega
    omega

/-- Counterexample for claim C10: two records share the fingerprint but
their start timestamps differ by less than a millisecond; `Alert.Key`
truncates to `UnixMilli`, so their identity keys coincide and the
second record hits (and would overwrite) the first record's buffer
entry instead of occupying a distinct one. -/
theorem c10_identity_counterexample :
    c10a.fingerprint = c10b.fingerprint
      ∧ c10a.startsAt ≠ c10b.startsAt
      ∧ c10a.key = c10b.key
      ∧ findA [(c10a.key, c10a)] c10b.key = some c10a :=
  ⟨rfl, by decide, rfl, rfl⟩

/-- Claim C10 (amended): records with equal fingerprint are distinct
buffer instances exactly at the millisecond granularity the key
encodes — whenever their start timestamps have different `UnixMilli`
values their identity keys differ (sub-millisecond differences collapse
onto one key, as the counterexample shows). -/
theorem c10_identity_distinct_amended (a b : Alert)
    (hf : a.fingerprint = b.fingerprint)
    (hm : a.startsAt.unixMilli ≠ b.startsAt.unixMilli) :
    a.key ≠ b.key := by
  intro hkey
  apply hm
  rw [Alert.key, Alert.key, hf] at hkey
  have hdata := congrArg String.data hkey
  simp only [String.data_append] at hdata
  exact intChars_inj _ _ (List.append_cancel_left hdata)

/-- Witness for the amended claim C10: two records with equal
fingerprint whose start timestamps fall in different milliseconds have
distinct identity keys. -/
theorem c10_identity_distinct_amended_witness :
    c10a.fingerprint = c10c.fingerprint
      ∧ c10a.startsAt.unixMilli ≠ c10c.startsAt.unixMilli
      ∧ c10a.key ≠ c10c.key :=
  ⟨rfl, by decide, c10_identity_distinct_amended c10a c10c rfl (by decide)⟩
